import Mathlib

/-!
Verification of the Azure DevOps PR contribution scripts
(`ado_pr_contribution.py` and `org_pr_count.py`) against their
natural-language specification.

The Python scripts are shallowly embedded below.  Timestamps appear at two
levels: the raw strings returned by the service (modelled as `List Char`,
for the normalization logic of `get_all_pull_requests` / `count_project_prs`)
and the calendar dates obtained after parsing (modelled as a `Date` record
ordered lexicographically, exactly how Python compares `datetime.date`
values).  Inside the pagination loop a pull-request record carries its dates
post-parse: `none` models an absent or unparseable timestamp, which the
source skips with `continue` / excludes via the `if date_field:` truthiness
test.
-/

namespace AdoPr

/-- A calendar date, the result of `datetime.fromisoformat(...).date()`. -/
structure Date where
  year : Nat
  month : Nat
  day : Nat
deriving DecidableEq, Repr

/-- Python `date <` is lexicographic on (year, month, day). -/
def Date.ltb (a b : Date) : Bool :=
  decide (a.year < b.year) ||
    (decide (a.year = b.year) &&
      (decide (a.month < b.month) ||
        (decide (a.month = b.month) && decide (a.day < b.day))))

/-- Python `date <=` is lexicographic on (year, month, day). -/
def Date.leb (a b : Date) : Bool :=
  decide (a.year < b.year) ||
    (decide (a.year = b.year) &&
      (decide (a.month < b.month) ||
        (decide (a.month = b.month) && decide (a.day ≤ b.day))))

theorem Date.ltb_irrefl (a : Date) : Date.ltb a a = false := by
  simp [Date.ltb]

theorem Date.leb_refl (a : Date) : Date.leb a a = true := by
  simp [Date.leb]

/-- A pull-request record as materialized from one page of the listing API.
`author` is the `createdBy.displayName` string (`'Unknown'` when absent, the
`.get` default used by the aggregator); `reviewers` is the list of reviewer
`displayName` strings in API order.  `creationDate = none` models an
unparseable `creationDate` string; `closedDate = none` models an absent or
unparseable `closedDate`.  `repositoryName` / `projectName` start as `none`
and are set by the fetch loop's annotation step. -/
structure PR where
  prId : Nat
  author : String
  reviewers : List String
  creationDate : Option Date
  closedDate : Option Date
  repositoryName : Option String
  projectName : Option String
deriving DecidableEq, Repr

/-- The annotation step `pr['repositoryName'] = repo_name;
pr['projectName'] = self.project` (`ado_pr_contribution.py` lines 226-227). -/
def annotatePR (repoName projName : String) (pr : PR) : PR :=
  { pr with repositoryName := some repoName, projectName := some projName }

/-- The selection `date_field = pr['creationDate'] if use_creation_date else
pr.get('closedDate')` (line 198), composed with the date parse; `none`
covers both a missing field and a parse failure. -/
def configuredDateField (useCreation : Bool) (pr : PR) : Option Date :=
  if useCreation then pr.creationDate else pr.closedDate

/-- The per-record date-window decision of the fetch loop (lines 198-224):
select the configured field; absent or unparseable excludes the record;
otherwise test `start_dt <= pr_date < end_dt`. -/
def prInWindow (useCreation : Bool) (s e : Date) (pr : PR) : Bool :=
  match configuredDateField useCreation pr with
  | none => false
  | some d => Date.leb s d && Date.ltb d e

/-- Outcome of one page request against the listing API, as seen by
`get_pull_requests` before its error handling runs. -/
inductive PageResult where
  | ok (items : List PR)
  | notFound
  | accessDenied
  | httpError (code : Nat)
  | networkError
deriving DecidableEq, Repr

/-- The function `get_pull_requests` (`ado_pr_contribution.py` lines 123-158,
`org_pr_count.py` lines 138-173): a successful response yields its `value`
array; 404, 403, any other HTTP error and any network error all return the
empty list without raising. -/
def getPullRequests : PageResult → List PR
  | PageResult.ok items => items
  | PageResult.notFound => []
  | PageResult.accessDenied => []
  | PageResult.httpError _ => []
  | PageResult.networkError => []

/-- The early-stop test on a page (lines 240-257): parse the creation date
of the first (newest) item and compare it with the window start; a parse
failure (`none`) means "continue fetching" (the `except ValueError: pass`). -/
def earlyStopHit (s : Date) (prs : List PR) : Bool :=
  match prs with
  | [] => false
  | pr :: _ =>
    match pr.creationDate with
    | some d => Date.ltb d s
    | none => false

/-- Result of the per-repository `while True:` fetch loop: the annotated
in-window records collected into `all_prs`, the number of page requests
issued, and the `repo_has_data` flag. -/
structure FetchResult where
  prs : List PR
  requests : Nat
  hasData : Bool
deriving DecidableEq, Repr

/-- The per-repository `while True:` pagination loop of
`get_all_pull_requests` (lines 180-259) and `count_project_prs`
(lines 192-265), with the remaining pages given as a list (element `k` is
the response for offset `skip = 100 * k`; past the end of the list the
service serves an empty page).  Each iteration issues one request; an empty
page breaks; in-window records are annotated and collected; a page shorter
than the batch size of 100 breaks; the early-stop heuristic (guarded by
`use_creation_date`) breaks; otherwise `skip` advances by the batch size. -/
def fetchRepoLoop (u : Bool) (s e : Date) (rn pn : String) :
    List PageResult → FetchResult
  | [] => ⟨[], 1, false⟩
  | r :: rest =>
    if (getPullRequests r).isEmpty then ⟨[], 1, false⟩
    else if (getPullRequests r).length < 100 then
      ⟨((getPullRequests r).filter (prInWindow u s e)).map (annotatePR rn pn), 1, true⟩
    else if u && earlyStopHit s (getPullRequests r) then
      ⟨((getPullRequests r).filter (prInWindow u s e)).map (annotatePR rn pn), 1, true⟩
    else
      ⟨((getPullRequests r).filter (prInWindow u s e)).map (annotatePR rn pn)
          ++ (fetchRepoLoop u s e rn pn rest).prs,
        1 + (fetchRepoLoop u s e rn pn rest).requests, true⟩

/-- One repository's full fetch, starting at offset 0. -/
def fetchRepo (u : Bool) (s e : Date) (rn pn : String)
    (pages : List PageResult) : FetchResult :=
  fetchRepoLoop u s e rn pn pages

/-- Chunk a repository's completed-PR backlog into the pages the listing API
serves for `$top = 100`: page `k` holds items `[100*k, 100*(k+1))`. -/
def chunkPages (l : List PR) : List (List PR) :=
  if l.isEmpty then [] else l.take 100 :: chunkPages (l.drop 100)
termination_by l.length
decreasing_by
  simp only [List.isEmpty_eq_true] at *
  have : l ≠ [] := by assumption
  have hpos : 0 < l.length := List.length_pos.mpr this
  simp [List.length_drop]
  omega

/-- A repository holding exactly the given items, serving them in pages of
100 with no transport failures. -/
def pagesOfItems (items : List PR) : List PageResult :=
  (chunkPages items).map PageResult.ok

/-! ## Aggregator (`analyze_pr_data`, `ado_pr_contribution.py` lines 450-483) -/

/-- A `collections.Counter` over display names: an ordered association list,
as Python dicts preserve insertion order.  `counterAdd` is `counter[k] += 1`:
bump an existing key in place, or append a new key with count 1. -/
def counterAdd (c : List (String × Nat)) (k : String) : List (String × Nat) :=
  match c with
  | [] => [(k, 1)]
  | (k', n) :: rest =>
    if k' = k then (k', n + 1) :: rest else (k', n) :: counterAdd rest k

/-- Lookup `counter[k]` with default 0 (the count a `Counter` reports for a missing
key). -/
def counterCount (c : List (String × Nat)) (k : String) : Nat :=
  match c with
  | [] => 0
  | (k', n) :: rest => if k' = k then n else counterCount rest k

/-- Stable insertion used to sort counter entries by count, descending:
an element goes before the first existing entry with a count ≤ its own,
which keeps equal-count entries in their original (insertion) order, the
tie order of `Counter.most_common`. -/
def insertDesc (x : String × Nat) : List (String × Nat) → List (String × Nat)
  | [] => [x]
  | y :: ys => if y.2 ≤ x.2 then x :: y :: ys else y :: insertDesc x ys

/-- Stable sort by count, descending (the ordering of
`Counter.most_common`). -/
def sortDesc : List (String × Nat) → List (String × Nat)
  | [] => []
  | x :: xs => insertDesc x (sortDesc xs)

/-- Python `counter.most_common(n)`: entries sorted by count descending, first `n`
kept. -/
def mostCommon (c : List (String × Nat)) (n : Nat) : List (String × Nat) :=
  (sortDesc c).take n

/-- The service-account marker substring of the reviewer filter
(line 466). -/
def serviceAccountMarker : String := "Cloud Services"

/-- Python `pat in s` on strings: contiguous-substring containment. -/
def charsContains (s pat : List Char) : Bool :=
  match s with
  | [] => pat.isEmpty
  | _ :: rest => pat.isPrefixOf s || charsContains rest pat

/-- Python `s.startswith(pre)`. -/
def startsWithChars (s pre : List Char) : Bool :=
  pre.isPrefixOf s

/-- The reviewer guard of `analyze_pr_data` line 466:
`not reviewer_name.startswith('[') and 'Cloud Services' not in
reviewer_name`. -/
def reviewerOk (name : String) : Bool :=
  !(startsWithChars name.toList "[".toList)
    && !(charsContains name.toList serviceAccountMarker.toList)

/-- The four frequency counters built by `analyze_pr_data`. -/
structure Tallies where
  authors : List (String × Nat)
  reviewers : List (String × Nat)
  repositories : List (String × Nat)
  projects : List (String × Nat)
deriving DecidableEq, Repr

/-- One iteration of the `for pr in prs:` loop of `analyze_pr_data`
(lines 457-475): author bumped once, each reviewer entry passing the
service-account guard bumped once, repository and project (`.get` default
`'Unknown'`) bumped once. -/
def tallyPR (t : Tallies) (pr : PR) : Tallies :=
  { authors := counterAdd t.authors pr.author
    reviewers :=
      pr.reviewers.foldl
        (fun c name => if reviewerOk name then counterAdd c name else c)
        t.reviewers
    repositories := counterAdd t.repositories (pr.repositoryName.getD "Unknown")
    projects := counterAdd t.projects (pr.projectName.getD "Unknown") }

/-- The counter-building phase of `analyze_pr_data`. -/
def tallyAll (prs : List PR) : Tallies :=
  prs.foldl tallyPR ⟨[], [], [], []⟩

/-- The statistics dictionary returned by `analyze_pr_data`
(lines 477-483). -/
structure Stats where
  authors : List (String × Nat)
  reviewers : List (String × Nat)
  repositories : List (String × Nat)
  projects : List (String × Nat)
  totalPrs : Nat
deriving DecidableEq, Repr

/-- The function `analyze_pr_data`: build the four counters, report the top 10 authors,
reviewers and repositories, all projects sorted by count, and the total. -/
def analyzePRData (prs : List PR) : Stats :=
  let t := tallyAll prs
  { authors := mostCommon t.authors 10
    reviewers := mostCommon t.reviewers 10
    repositories := mostCommon t.repositories 10
    projects := sortDesc t.projects
    totalPrs := prs.length }

/-! ## Orchestrators -/

/-- The function `fetch_prs_from_multiple_projects` (`ado_pr_contribution.py` lines
564-600), with each project's fetch outcome given as data: `Except.ok`
holds the PRs `get_all_pull_requests` returned, `Except.error` models an
exception raised while processing that project.  The loop extends `all_prs`
on success and catches, warns and `continue`s on failure. -/
def fetchPrsFromMultipleProjects (outcomes : List (Except String (List PR))) :
    List PR :=
  outcomes.foldl
    (fun acc o =>
      match o with
      | Except.ok l => acc ++ l
      | Except.error _ => acc)
    []

/-- The per-project loop of `org_pr_count.py`'s `main` (lines 461-480):
on success record `project_counts[name] = count` and add to `total_prs`;
on an exception record `project_counts[name] = 0` and `continue`.  Returns
the recorded per-project counts (in insertion order) and the total. -/
def orgMainProjectLoop (outcomes : List (String × Except String Nat)) :
    List (String × Nat) × Nat :=
  outcomes.foldl
    (fun st no =>
      match no.2 with
      | Except.ok c => (st.1 ++ [(no.1, c)], st.2 + c)
      | Except.error _ => (st.1 ++ [(no.1, 0)], st.2))
    ([], 0)

/-! ## Timestamp normalization (`ado_pr_contribution.py` lines 203-215,
`org_pr_count.py` lines 214-226) -/

/-- Digit test on a character (code points 48-57). -/
def isDigitChar (c : Char) : Bool :=
  decide (48 ≤ c.toNat) && decide (c.toNat ≤ 57)

/-- The call `date_field.replace('Z', '+00:00')`: Python `str.replace` substitutes
every occurrence of the single-character pattern. -/
def replaceZ : List Char → List Char
  | [] => []
  | c :: rest =>
    if c = 'Z' then '+' :: '0' :: '0' :: ':' :: '0' :: '0' :: replaceZ rest
    else c :: replaceZ rest

/-- Python `s.rsplit(sep, 1)` when `sep` occurs in `s`: the parts before and
after the last occurrence of `sep`.  When `sep` does not occur the pair
`(s, [])` is returned; the source only calls this under an `in` guard, so
that case is unreachable there. -/
def rsplitLast (sep : Char) : List Char → List Char × List Char
  | [] => ([], [])
  | c :: rest =>
    if sep ∈ rest then
      (c :: (rsplitLast sep rest).1, (rsplitLast sep rest).2)
    else if c = sep then ([], rest)
    else (c :: rest, [])

/-- The microsecond truncation of lines 211-212: only a fraction longer
than 6 digits is cut, shorter ones pass through unchanged. -/
def truncMicroStr (micro : List Char) : List Char :=
  if 6 < micro.length then micro.take 6 else micro

/-- The whole normalization block (lines 203-213): replace `'Z'` with
`'+00:00'`; then, only when the cleaned string contains both `'.'` and
`'+'`, split off the timezone at the last `'+'`, split off the fraction at
the last `'.'`, truncate an over-6-digit fraction, and reassemble. -/
def normalizeTimestamp (s : List Char) : List Char :=
  if '.' ∈ replaceZ s ∧ '+' ∈ replaceZ s then
    if '.' ∈ (rsplitLast '+' (replaceZ s)).1 then
      (rsplitLast '.' (rsplitLast '+' (replaceZ s)).1).1
        ++ '.' :: truncMicroStr (rsplitLast '.' (rsplitLast '+' (replaceZ s)).1).2
        ++ '+' :: (rsplitLast '+' (replaceZ s)).2
    else replaceZ s
  else replaceZ s

/-- Value of a digit string read left to right, as `int` would read it. -/
def digitsVal (l : List Char) : Nat :=
  l.foldl (fun a c => a * 10 + (c.toNat - 48)) 0

/-- The fractional-seconds part of the strict ISO-8601 parser the spec
assumes for `datetime.fromisoformat`: a fraction must be 1-6 digits, and is
scaled to microseconds. -/
def parseFracMicros (l : List Char) : Option Nat :=
  if l ≠ [] ∧ l.length ≤ 6 ∧ l.all isDigitChar then
    some (digitsVal l * 10 ^ (6 - l.length))
  else none

/-- The fragment of `datetime.fromisoformat` this code relies on, for
offset-bearing inputs: split the UTC offset at the last `'+'`, split the
fractional seconds at the last `'.'` when present, and reject a fraction
longer than 6 digits or containing a non-digit.  The parsed value is the
seconds-resolution prefix, the fraction in microseconds, and the offset
text. -/
def parseNormalized (l : List Char) : Option (List Char × Nat × List Char) :=
  if '+' ∈ l then
    if '.' ∈ (rsplitLast '+' l).1 then
      match parseFracMicros (rsplitLast '.' (rsplitLast '+' l).1).2 with
      | some m => some ((rsplitLast '.' (rsplitLast '+' l).1).1, m,
          (rsplitLast '+' l).2)
      | none => none
    else some ((rsplitLast '+' l).1, 0, (rsplitLast '+' l).2)
  else none

/-- The exact value, in whole microseconds, of a digit-string fraction of a
second truncated to microsecond precision: `⌊0.frac * 10^6⌋`. -/
def microsOfFrac (frac : List Char) : Nat :=
  digitsVal frac * 10 ^ 6 / 10 ^ frac.length

/-! ## Argument parsing (`ado_pr_contribution.py` lines 281-384) -/

/-- Python `int(arg)` on a decimal literal: optional surrounding whitespace,
an optional sign, then one or more digits; anything else raises
`ValueError`, modelled as `none`. -/
def pyIntOfString (s : String) : Option Int :=
  let l := (((s.toList.dropWhile Char.isWhitespace).reverse.dropWhile
      Char.isWhitespace)).reverse
  match l with
  | [] => none
  | '+' :: ds =>
    if ds ≠ [] ∧ ds.all isDigitChar then some (digitsVal ds : Int) else none
  | '-' :: ds =>
    if ds ≠ [] ∧ ds.all isDigitChar then some (-(digitsVal ds : Int)) else none
  | ds =>
    if ds ≠ [] ∧ ds.all isDigitChar then some (digitsVal ds : Int) else none

/-- Python `s.strip()`. -/
def stripStr (s : String) : String :=
  String.mk (((s.toList.dropWhile Char.isWhitespace).reverse.dropWhile
      Char.isWhitespace).reverse)

/-- Python `s.split(',')` on the character list: cut at every comma,
keeping empty pieces. -/
def splitComma : List Char → List (List Char)
  | [] => [[]]
  | c :: rest =>
    if c = ',' then [] :: splitComma rest
    else
      match splitComma rest with
      | [] => [[c]]
      | p :: ps => (c :: p) :: ps

/-- The comprehension `[p.strip() for p in arg.split(',')]` (line 315). -/
def splitProjects (arg : String) : List String :=
  (splitComma arg.toList).map (fun l => stripStr (String.mk l))

/-- The configured default project (`DEFAULT_PROJECT`, line 35). -/
def defaultProject : String := "ic.cloud-core"

/-- The tuple `parse_arguments` returns: projects, year, month,
`use_current_month`, `use_whole_year`. -/
structure ParsedArgs where
  projects : List String
  year : Option String
  month : Option String
  useCurrentMonth : Bool
  useWholeYear : Bool
deriving DecidableEq, Repr

/-- The one-positional-argument branch of `parse_arguments` (lines 303-316):
try `int(arg)`; on success and `2000 <= year <= 2030` treat it as a year
(default project, whole year); otherwise — including an integer outside the
range — fall through and treat the argument as a comma-separated project
list with the current-month window. -/
def parseArgumentsOneArg (arg : String) : ParsedArgs :=
  match pyIntOfString arg with
  | some y =>
    if 2000 ≤ y ∧ y ≤ 2030 then
      ⟨[defaultProject], some arg, none, false, true⟩
    else ⟨splitProjects arg, none, none, true, false⟩
  | none => ⟨splitProjects arg, none, none, true, false⟩

/-! ## Helper lemmas -/

theorem orgMainProjectLoop_go (outcomes : List (String × Except String Nat))
    (acc : List (String × Nat)) (tot : Nat) :
    outcomes.foldl
        (fun st no =>
          match no.2 with
          | Except.ok c => (st.1 ++ [(no.1, c)], st.2 + c)
          | Except.error _ => (st.1 ++ [(no.1, 0)], st.2))
        (acc, tot)
      = (acc ++ outcomes.map (fun no =>
            (no.1, match no.2 with
              | Except.ok c => c
              | Except.error _ => 0)),
          tot + (outcomes.map (fun no =>
            match no.2 with
            | Except.ok c => c
            | Except.error _ => 0)).sum) := by
  induction outcomes generalizing acc tot with
  | nil => simp
  | cons no rest ih =>
    cases h : no.2 with
    | ok c => simp [List.foldl_cons, h, ih]; omega
    | error msg => simp [List.foldl_cons, h, ih]

theorem fetchPrsFromMultipleProjects_go
    (outcomes : List (Except String (List PR))) (acc : List PR) :
    outcomes.foldl
        (fun acc o =>
          match o with
          | Except.ok l => acc ++ l
          | Except.error _ => acc)
        acc
      = acc ++ (outcomes.map (fun o =>
          match o with
          | Except.ok l => l
          | Except.error _ => [])).flatten := by
  induction outcomes generalizing acc with
  | nil => simp
  | cons o rest ih =>
    cases o with
    | ok l => simp [List.foldl_cons, ih]
    | error msg => simp [List.foldl_cons, ih]

theorem chunkPages_nil : chunkPages [] = [] := by
  rw [chunkPages]
  simp

theorem chunkPages_cons (l : List PR) (h : l ≠ []) :
    chunkPages l = l.take 100 :: chunkPages (l.drop 100) := by
  rw [chunkPages]
  simp [h]

theorem fetchRepoLoop_requests_formula_aux (u : Bool) (s e : Date)
    (rn pn : String) (n : Nat) :
    ∀ items : List PR, items.length ≤ n →
      (u = false ∨
        ∀ pr ∈ items, ∀ d, pr.creationDate = some d → Date.ltb d s = false) →
      (fetchRepoLoop u s e rn pn (pagesOfItems items)).requests
        = items.length / 100 + 1 := by
  induction n with
  | zero =>
    intro items hlen _
    have : items = [] := List.length_eq_zero.mp (Nat.le_zero.mp hlen)
    subst this
    simp [pagesOfItems, chunkPages_nil, fetchRepoLoop]
  | succ n ih =>
    intro items hlen h
    rcases items with _ | ⟨a, l⟩
    · simp [pagesOfItems, chunkPages_nil, fetchRepoLoop]
    · have hne : (a :: l) ≠ [] := by simp
      rw [pagesOfItems, chunkPages_cons _ hne, List.map_cons]
      have htake : (a :: l).take 100 = a :: l.take 99 := by
        rw [show (100 : Nat) = 99 + 1 from rfl, List.take_succ_cons]
      have hdrop : (a :: l).drop 100 = l.drop 99 := by
        rw [show (100 : Nat) = 99 + 1 from rfl, List.drop_succ_cons]
      rw [htake, hdrop, fetchRepoLoop]
      simp only [getPullRequests, List.isEmpty_cons, Bool.false_eq_true,
        if_false]
      by_cases hl : l.length < 99
      · have hcond : (a :: l.take 99).length < 100 := by
          simp [List.length_take]
          omega
        rw [if_pos hcond]
        have hsmall : l.length + 1 < 100 := by omega
        simp [Nat.div_eq_of_lt hsmall]
      · have hcond : ¬ (a :: l.take 99).length < 100 := by
          simp [List.length_take]
          omega
        rw [if_neg hcond]
        have hstop : (u && earlyStopHit s (a :: l.take 99)) = false := by
          rcases h with rfl | hall
          · simp
          · cases ha : a.creationDate with
            | none => simp [earlyStopHit, ha]
            | some d =>
              have := hall a (by simp) d ha
              simp [earlyStopHit, ha, this]
        rw [hstop]
        simp only [Bool.false_eq_true, if_false]
        have h' : u = false ∨
            ∀ pr ∈ l.drop 99, ∀ d, pr.creationDate = some d →
              Date.ltb d s = false := by
          rcases h with rfl | hall
          · exact Or.inl rfl
          · exact Or.inr fun pr hm d hd =>
              hall pr (List.mem_cons_of_mem a (List.drop_subset 99 l hm)) d hd
        have hlen' : (l.drop 99).length ≤ n := by
          simp only [List.length_drop]
          simp only [List.length_cons] at hlen
          omega
        have ihd := ih (l.drop 99) hlen' h'
        rw [pagesOfItems] at ihd
        simp only [ihd, List.length_drop, List.length_cons]
        have h99 : 99 ≤ l.length := by omega
        have hsplit : l.length + 1 = (l.length - 99) + 100 := by omega
        rw [hsplit, Nat.add_div_right _ (by norm_num)]
        omega

/-- On an ideal source of `N` items served in full pages of 100, the loop
issues `N / 100 + 1` page requests whenever the early-stop heuristic cannot
fire (completion-date filtering, or no creation date before the window
start). -/
theorem fetchRepoLoop_requests_formula (u : Bool) (s e : Date) (rn pn : String)
    (items : List PR)
    (h : u = false ∨
      ∀ pr ∈ items, ∀ d, pr.creationDate = some d → Date.ltb d s = false) :
    (fetchRepoLoop u s e rn pn (pagesOfItems items)).requests
      = items.length / 100 + 1 :=
  fetchRepoLoop_requests_formula_aux u s e rn pn items.length items le_rfl h

/-- Every record collected by the pagination loop is an in-window record of
some served page, annotated with the owning repository and project names. -/
theorem fetchRepoLoop_mem (u : Bool) (s e : Date) (rn pn : String)
    (pages : List PageResult) (q : PR)
    (hq : q ∈ (fetchRepoLoop u s e rn pn pages).prs) :
    ∃ p, prInWindow u s e p = true ∧ q = annotatePR rn pn p := by
  induction pages with
  | nil => simp [fetchRepoLoop] at hq
  | cons r rest ih =>
    rw [fetchRepoLoop] at hq
    by_cases h1 : (getPullRequests r).isEmpty
    · simp [h1] at hq
    · rw [if_neg (by simp [h1])] at hq
      by_cases h2 : (getPullRequests r).length < 100
      · rw [if_pos h2] at hq
        simp only [List.mem_map, List.mem_filter] at hq
        obtain ⟨p, ⟨_, hp⟩, hpq⟩ := hq
        exact ⟨p, hp, hpq.symm⟩
      · rw [if_neg h2] at hq
        by_cases h3 : (u && earlyStopHit s (getPullRequests r)) = true
        · rw [if_pos h3] at hq
          simp only [List.mem_map, List.mem_filter] at hq
          obtain ⟨p, ⟨_, hp⟩, hpq⟩ := hq
          exact ⟨p, hp, hpq.symm⟩
        · rw [if_neg h3] at hq
          simp only [List.mem_append, List.mem_map, List.mem_filter] at hq
          rcases hq with ⟨p, ⟨_, hp⟩, hpq⟩ | hq
          · exact ⟨p, hp, hpq.symm⟩
          · exact ih hq

theorem mem_counterAdd (c : List (String × Nat)) (k : String)
    (p : String × Nat) (hp : p ∈ counterAdd c k) : p ∈ c ∨ p.1 = k := by
  induction c with
  | nil =>
    simp [counterAdd] at hp
    simp [hp]
  | cons a rest ih =>
    rw [counterAdd] at hp
    by_cases hk : a.1 = k
    · rw [if_pos hk] at hp
      rcases List.mem_cons.mp hp with rfl | hmem
      · exact Or.inr hk
      · exact Or.inl (List.mem_cons_of_mem _ hmem)
    · rw [if_neg hk] at hp
      rcases List.mem_cons.mp hp with rfl | hmem
      · exact Or.inl (List.mem_cons_self _ _)
      · rcases ih hmem with h | h
        · exact Or.inl (List.mem_cons_of_mem _ h)
        · exact Or.inr h

theorem reviewersFold_pred (names : List String) (c : List (String × Nat))
    (hc : ∀ p ∈ c, reviewerOk p.1 = true) :
    ∀ p ∈ names.foldl
        (fun c name => if reviewerOk name then counterAdd c name else c) c,
      reviewerOk p.1 = true := by
  induction names generalizing c with
  | nil => simpa using hc
  | cons n ns ih =>
    rw [List.foldl_cons]
    apply ih
    by_cases hn : reviewerOk n = true
    · rw [if_pos hn]
      intro p hp
      rcases mem_counterAdd c n p hp with h | h
      · exact hc p h
      · rw [h]; exact hn
    · rw [if_neg hn]; exact hc

theorem tallyAll_reviewers_pred (prs : List PR) :
    ∀ p ∈ (tallyAll prs).reviewers, reviewerOk p.1 = true := by
  rw [tallyAll]
  generalize ht : (⟨[], [], [], []⟩ : Tallies) = t
  have hinv : ∀ p ∈ t.reviewers, reviewerOk p.1 = true := by
    rw [← ht]; simp
  clear ht
  induction prs generalizing t with
  | nil => simpa using hinv
  | cons pr rest ih =>
    rw [List.foldl_cons]
    apply ih
    exact reviewersFold_pred pr.reviewers t.reviewers hinv

theorem mem_insertDesc (x p : String × Nat) (l : List (String × Nat))
    (hp : p ∈ insertDesc x l) : p = x ∨ p ∈ l := by
  induction l with
  | nil => simpa [insertDesc] using hp
  | cons y ys ih =>
    rw [insertDesc] at hp
    by_cases hc : y.2 ≤ x.2
    · rw [if_pos hc] at hp
      rcases List.mem_cons.mp hp with rfl | h
      · exact Or.inl rfl
      · exact Or.inr h
    · rw [if_neg hc] at hp
      rcases List.mem_cons.mp hp with rfl | h
      · exact Or.inr (List.mem_cons_self _ _)
      · rcases ih h with h' | h'
        · exact Or.inl h'
        · exact Or.inr (List.mem_cons_of_mem _ h')

theorem mem_sortDesc (p : String × Nat) (l : List (String × Nat))
    (hp : p ∈ sortDesc l) : p ∈ l := by
  induction l with
  | nil => simp [sortDesc] at hp
  | cons y ys ih =>
    rw [sortDesc] at hp
    rcases mem_insertDesc y p (sortDesc ys) hp with rfl | h
    · exact List.mem_cons_self _ _
    · exact List.mem_cons_of_mem _ (ih h)

theorem mem_mostCommon (c : List (String × Nat)) (n : Nat)
    (p : String × Nat) (hp : p ∈ mostCommon c n) : p ∈ c :=
  mem_sortDesc p c (List.take_subset n (sortDesc c) hp)

theorem counterCount_counterAdd (c : List (String × Nat)) (k k' : String) :
    counterCount (counterAdd c k) k'
      = counterCount c k' + (if k = k' then 1 else 0) := by
  induction c with
  | nil =>
    by_cases h : k = k' <;> simp [counterAdd, counterCount, h]
  | cons a rest ih =>
    rw [counterAdd]
    by_cases hk : a.1 = k
    · rw [if_pos hk]
      by_cases hk' : a.1 = k'
      · simp only [counterCount, if_pos hk']
        have : k = k' := hk ▸ hk'
        simp [this]
      · simp only [counterCount, if_neg hk']
        have : ¬ k = k' := fun h => hk' (hk.trans h)
        simp [this]
    · rw [if_neg hk]
      by_cases hk' : a.1 = k'
      · have hkk : ¬ k = k' := fun h => hk (hk'.trans h.symm)
        simp [counterCount, hk', hkk]
      · simp [counterCount, hk', ih]

theorem reviewersFold_count (names : List String) (c : List (String × Nat))
    (name : String) :
    counterCount
        (names.foldl
          (fun c n => if reviewerOk n then counterAdd c n else c) c)
        name
      = counterCount c name
        + names.countP (fun r => r == name && reviewerOk r) := by
  induction names generalizing c with
  | nil => simp
  | cons n ns ih =>
    rw [List.foldl_cons, List.countP_cons, ih]
    by_cases hok : reviewerOk n = true
    · rw [if_pos hok, counterCount_counterAdd]
      by_cases hn : n = name
      · subst hn
        simp [hok]
        omega
      · have hb : (n == name) = false := by simp [hn]
        simp [hn, hb]
    · rw [if_neg hok]
      have hokf : reviewerOk n = false := by
        cases h : reviewerOk n
        · rfl
        · exact absurd h hok
      simp [hokf]

theorem tallyFold_authors (prs : List PR) (t : Tallies) (name : String) :
    counterCount (prs.foldl tallyPR t).authors name
      = counterCount t.authors name
        + prs.countP (fun pr => pr.author == name) := by
  induction prs generalizing t with
  | nil => simp
  | cons pr rest ih =>
    rw [List.foldl_cons, List.countP_cons, ih]
    show counterCount (counterAdd t.authors pr.author) name + _ = _
    rw [counterCount_counterAdd]
    by_cases hn : pr.author = name
    · simp [hn]
      omega
    · have : (pr.author == name) = false := by simp [hn]
      simp [hn, this]

theorem tallyFold_repositories (prs : List PR) (t : Tallies) (name : String) :
    counterCount (prs.foldl tallyPR t).repositories name
      = counterCount t.repositories name
        + prs.countP (fun pr => pr.repositoryName.getD "Unknown" == name) := by
  induction prs generalizing t with
  | nil => simp
  | cons pr rest ih =>
    rw [List.foldl_cons, List.countP_cons, ih]
    show counterCount
        (counterAdd t.repositories (pr.repositoryName.getD "Unknown")) name
        + _ = _
    rw [counterCount_counterAdd]
    by_cases hn : pr.repositoryName.getD "Unknown" = name
    · simp [hn]
      omega
    · have : (pr.repositoryName.getD "Unknown" == name) = false := by
        simp [hn]
      simp [hn, this]

theorem tallyFold_projects (prs : List PR) (t : Tallies) (name : String) :
    counterCount (prs.foldl tallyPR t).projects name
      = counterCount t.projects name
        + prs.countP (fun pr => pr.projectName.getD "Unknown" == name) := by
  induction prs generalizing t with
  | nil => simp
  | cons pr rest ih =>
    rw [List.foldl_cons, List.countP_cons, ih]
    show counterCount
        (counterAdd t.projects (pr.projectName.getD "Unknown")) name
        + _ = _
    rw [counterCount_counterAdd]
    by_cases hn : pr.projectName.getD "Unknown" = name
    · simp [hn]
      omega
    · have : (pr.projectName.getD "Unknown" == name) = false := by simp [hn]
      simp [hn, this]

theorem tallyFold_reviewers (prs : List PR) (t : Tallies) (name : String) :
    counterCount (prs.foldl tallyPR t).reviewers name
      = counterCount t.reviewers name
        + (prs.map (fun pr =>
            pr.reviewers.countP (fun r => r == name && reviewerOk r))).sum := by
  induction prs generalizing t with
  | nil => simp
  | cons pr rest ih =>
    rw [List.foldl_cons, List.map_cons, List.sum_cons, ih]
    show counterCount (pr.reviewers.foldl
        (fun c n => if reviewerOk n then counterAdd c n else c)
        t.reviewers) name + _ = _
    rw [reviewersFold_count]
    omega

theorem replaceZ_append (a b : List Char) :
    replaceZ (a ++ b) = replaceZ a ++ replaceZ b := by
  induction a with
  | nil => simp [replaceZ]
  | cons c t ih =>
    rw [List.cons_append, replaceZ, replaceZ]
    by_cases hc : c = 'Z' <;> simp [hc, ih]

theorem replaceZ_of_not_mem (a : List Char) (h : 'Z' ∉ a) :
    replaceZ a = a := by
  induction a with
  | nil => rfl
  | cons c t ih =>
    rw [replaceZ]
    have hc : ¬ c = 'Z' := fun hh => h (hh ▸ List.mem_cons_self c t)
    rw [if_neg hc, ih (fun hm => h (List.mem_cons_of_mem _ hm))]

theorem rsplitLast_spec (sep : Char) (a b : List Char) (hb : sep ∉ b) :
    rsplitLast sep (a ++ sep :: b) = (a, b) := by
  induction a with
  | nil =>
    rw [List.nil_append, rsplitLast]
    rw [if_neg hb, if_pos rfl]
  | cons c t ih =>
    rw [List.cons_append, rsplitLast]
    have hmem : sep ∈ t ++ sep :: b :=
      List.mem_append_right _ (List.mem_cons_self _ _)
    rw [if_pos hmem, ih]

theorem digits_not_mem (l : List Char) (h : l.all isDigitChar = true) :
    '.' ∉ l ∧ 'Z' ∉ l ∧ '+' ∉ l := by
  rw [List.all_eq_true] at h
  refine ⟨fun hm => ?_, fun hm => ?_, fun hm => ?_⟩
  · exact absurd (h _ hm) (by decide)
  · exact absurd (h _ hm) (by decide)
  · exact absurd (h _ hm) (by decide)

theorem digitsVal_go (l : List Char) (a : Nat) :
    l.foldl (fun a c => a * 10 + (c.toNat - 48)) a
      = a * 10 ^ l.length + digitsVal l := by
  induction l generalizing a with
  | nil => simp [digitsVal]
  | cons c t ih =>
    rw [List.foldl_cons, ih]
    have hd : digitsVal (c :: t)
        = (c.toNat - 48) * 10 ^ t.length + digitsVal t := by
      rw [digitsVal, List.foldl_cons, ih]
      simp
    rw [hd, List.length_cons]
    ring

theorem digitsVal_append (a b : List Char) :
    digitsVal (a ++ b) = digitsVal a * 10 ^ b.length + digitsVal b := by
  rw [digitsVal, List.foldl_append, digitsVal_go]
  rfl

theorem digitsVal_lt (l : List Char) (h : l.all isDigitChar = true) :
    digitsVal l < 10 ^ l.length := by
  induction l with
  | nil => simp [digitsVal]
  | cons c t ih =>
    rw [List.all_cons, Bool.and_eq_true] at h
    have hc : c.toNat - 48 ≤ 9 := by
      have hd := h.1
      simp [isDigitChar] at hd
      omega
    have ht := ih h.2
    have hval : digitsVal (c :: t)
        = (c.toNat - 48) * 10 ^ t.length + digitsVal t := by
      rw [digitsVal, List.foldl_cons, digitsVal_go]
      simp
    rw [hval, List.length_cons, pow_succ]
    calc (c.toNat - 48) * 10 ^ t.length + digitsVal t
        < (c.toNat - 48) * 10 ^ t.length + 10 ^ t.length := by omega
      _ = (c.toNat - 48 + 1) * 10 ^ t.length := by ring
      _ ≤ 10 * 10 ^ t.length := Nat.mul_le_mul_right _ (by omega)
      _ = 10 ^ t.length * 10 := by ring

theorem truncMicroStr_all (frac : List Char)
    (h : frac.all isDigitChar = true) :
    (truncMicroStr frac).all isDigitChar = true := by
  rw [truncMicroStr]
  by_cases hl : 6 < frac.length
  · rw [if_pos hl, List.all_eq_true]
    rw [List.all_eq_true] at h
    exact fun x hx => h x (List.take_subset _ _ hx)
  · rw [if_neg hl]
    exact h

theorem microsOfFrac_of_le (frac : List Char) (h : frac.length ≤ 6) :
    microsOfFrac frac = digitsVal frac * 10 ^ (6 - frac.length) := by
  rw [microsOfFrac]
  have h6 : (10 : Nat) ^ 6 = 10 ^ (6 - frac.length) * 10 ^ frac.length := by
    rw [← pow_add]
    congr 1
    omega
  rw [h6, ← Nat.mul_assoc,
    Nat.mul_div_cancel _ (pow_pos (by norm_num : (0 : Nat) < 10) _)]

theorem microsOfFrac_of_gt (frac : List Char) (h : 6 < frac.length)
    (hdig : frac.all isDigitChar = true) :
    microsOfFrac frac = digitsVal (frac.take 6) := by
  have hdlen : (frac.drop 6).length = frac.length - 6 := List.length_drop 6 frac
  have hdig' : (frac.drop 6).all isDigitChar = true := by
    rw [List.all_eq_true] at hdig ⊢
    exact fun x hx => hdig x (List.drop_subset _ _ hx)
  have hlt : digitsVal (frac.drop 6) < 10 ^ (frac.length - 6) := by
    have hv := digitsVal_lt (frac.drop 6) hdig'
    rwa [hdlen] at hv
  have hval : digitsVal frac
      = digitsVal (frac.take 6) * 10 ^ (frac.length - 6)
        + digitsVal (frac.drop 6) := by
    conv_lhs => rw [← List.take_append_drop 6 frac]
    rw [digitsVal_append, hdlen]
  have hp : (10 : Nat) ^ frac.length = 10 ^ 6 * 10 ^ (frac.length - 6) := by
    rw [← pow_add]
    congr 1
    omega
  rw [microsOfFrac, hval, hp]
  rw [show (digitsVal (frac.take 6) * 10 ^ (frac.length - 6)
        + digitsVal (frac.drop 6)) * 10 ^ 6
      = 10 ^ 6 * (10 ^ (frac.length - 6) * digitsVal (frac.take 6)
        + digitsVal (frac.drop 6)) from by ring]
  rw [Nat.mul_div_mul_left _ _ (pow_pos (by norm_num : (0 : Nat) < 10) 6)]
  rw [Nat.mul_add_div (pow_pos (by norm_num : (0 : Nat) < 10) _)]
  rw [Nat.div_eq_of_lt hlt]
  omega

/-- Normalizing a well-formed Z-suffixed timestamp with a digit fraction:
the trailing `'Z'` becomes `'+00:00'` and the fraction is truncated to at
most 6 digits. -/
theorem normalizeTimestamp_eq (main frac : List Char)
    (hZm : 'Z' ∉ main) (hdig : frac.all isDigitChar = true) :
    normalizeTimestamp (main ++ ('.' :: frac) ++ ['Z'])
      = main ++ '.' :: truncMicroStr frac ++ '+' :: "00:00".toList := by
  obtain ⟨hdf, hZf, hpf⟩ := digits_not_mem frac hdig
  have hZdot : 'Z' ∉ ('.' :: frac) := by
    intro hm
    rcases List.mem_cons.mp hm with h | h
    · exact absurd h (by decide)
    · exact hZf h
  have hclean : replaceZ (main ++ ('.' :: frac) ++ ['Z'])
      = (main ++ '.' :: frac) ++ '+' :: "00:00".toList := by
    rw [replaceZ_append, replaceZ_append, replaceZ_of_not_mem _ hZm,
      replaceZ_of_not_mem _ hZdot,
      show replaceZ ['Z'] = '+' :: "00:00".toList from by decide]
  rw [normalizeTimestamp, hclean]
  rw [if_pos ⟨by simp, by simp⟩]
  rw [rsplitLast_spec '+' (main ++ '.' :: frac) "00:00".toList (by decide)]
  dsimp only
  rw [if_pos (show '.' ∈ main ++ '.' :: frac by simp)]
  rw [rsplitLast_spec '.' main frac hdf]

/-- Parsing the normalized form of a well-formed Z-suffixed timestamp
yields the seconds prefix unchanged, the zero UTC offset, and the original
fraction truncated to microsecond precision. -/
theorem parseNormalized_eq (main frac : List Char)
    (hne : frac ≠ []) (hdig : frac.all isDigitChar = true) :
    parseNormalized (main ++ '.' :: truncMicroStr frac ++ '+' :: "00:00".toList)
      = some (main, microsOfFrac frac, "00:00".toList) := by
  obtain ⟨hdf, hZf, hpf⟩ := digits_not_mem frac hdig
  have hdig' := truncMicroStr_all frac hdig
  obtain ⟨hdf', hZf', hpf'⟩ := digits_not_mem _ hdig'
  have hlpos : 0 < (truncMicroStr frac).length := by
    rw [truncMicroStr]
    by_cases hl : 6 < frac.length
    · rw [if_pos hl, List.length_take]
      omega
    · rw [if_neg hl]
      have hfo : frac.length ≠ 0 := fun h0 => hne (List.length_eq_zero.mp h0)
      omega
  have hne' : truncMicroStr frac ≠ [] := by
    intro hcon
    rw [hcon] at hlpos
    simp at hlpos
  have hlen' : (truncMicroStr frac).length ≤ 6 := by
    rw [truncMicroStr]
    by_cases hl : 6 < frac.length
    · rw [if_pos hl, List.length_take]
      omega
    · rw [if_neg hl]
      omega
  have hfm : parseFracMicros (truncMicroStr frac)
      = some (digitsVal (truncMicroStr frac)
          * 10 ^ (6 - (truncMicroStr frac).length)) := by
    rw [parseFracMicros, if_pos ⟨hne', hlen', hdig'⟩]
  have hmv : digitsVal (truncMicroStr frac)
      * 10 ^ (6 - (truncMicroStr frac).length) = microsOfFrac frac := by
    rw [truncMicroStr]
    by_cases hl : 6 < frac.length
    · rw [if_pos hl, microsOfFrac_of_gt frac hl hdig]
      have h6 : (frac.take 6).length = 6 := by
        rw [List.length_take]
        omega
      rw [h6]
      simp
    · rw [if_neg hl, microsOfFrac_of_le frac (by omega)]
  rw [parseNormalized]
  rw [if_pos (show '+' ∈ (main ++ '.' :: truncMicroStr frac)
      ++ '+' :: "00:00".toList by simp)]
  rw [rsplitLast_spec '+' (main ++ '.' :: truncMicroStr frac)
    "00:00".toList (by decide)]
  dsimp only
  rw [if_pos (show '.' ∈ main ++ '.' :: truncMicroStr frac by simp)]
  rw [rsplitLast_spec '.' main (truncMicroStr frac) hdf']
  dsimp only
  rw [hfm, hmv]

/-! ## Claims -/

/-- C1: a pull-request record whose configured timestamp parses to calendar
date `d` is counted as in-window exactly when `start <= d < end`; a record
dated exactly at the window's end is excluded, one dated exactly at the
window's start is included (the window invariant `start < end` holding). -/
theorem C1_half_open_window (u : Bool) (s e d : Date) (pr : PR)
    (h : configuredDateField u pr = some d) :
    (prInWindow u s e pr = true ↔ (Date.leb s d = true ∧ Date.ltb d e = true))
    ∧ (d = e → prInWindow u s e pr = false)
    ∧ (d = s → Date.ltb s e = true → prInWindow u s e pr = true) := by
  have hw : prInWindow u s e pr = (Date.leb s d && Date.ltb d e) := by
    simp [prInWindow, h]
  refine ⟨?_, ?_, ?_⟩
  · rw [hw]; simp
  · intro hde; subst hde; rw [hw]; simp [Date.ltb_irrefl]
  · intro hds hlt; subst hds; rw [hw]; simp [Date.leb_refl, hlt]

/-- Witness for C1 at the boundaries of the window
`[2025-03-01, 2025-04-01)`: a record completed `2025-03-01` is included and
one completed `2025-04-01` is excluded. -/
theorem C1_half_open_window_witness :
    prInWindow false ⟨2025, 3, 1⟩ ⟨2025, 4, 1⟩
        ⟨1, "A", [], none, some ⟨2025, 3, 1⟩, none, none⟩ = true
    ∧ prInWindow false ⟨2025, 3, 1⟩ ⟨2025, 4, 1⟩
        ⟨2, "A", [], none, some ⟨2025, 4, 1⟩, none, none⟩ = false :=
  ⟨(C1_half_open_window false ⟨2025, 3, 1⟩ ⟨2025, 4, 1⟩ ⟨2025, 3, 1⟩
      ⟨1, "A", [], none, some ⟨2025, 3, 1⟩, none, none⟩ rfl).2.2 rfl (by decide),
    (C1_half_open_window false ⟨2025, 3, 1⟩ ⟨2025, 4, 1⟩ ⟨2025, 4, 1⟩
      ⟨2, "A", [], none, some ⟨2025, 4, 1⟩, none, none⟩ rfl).2.1 rfl⟩

/-- C2: a repository holding exactly `N` completed pull requests served in
pages of 100, with the early-stop heuristic unable to fire (completion-date
filtering, or every creation date at or past the window start), takes
`N / 100 + 1` page requests when `100 ∣ N` (the final empty page signals
exhaustion) and `⌈N / 100⌉ = (N + 99) / 100` requests otherwise (a short
page signals exhaustion). -/
theorem C2_pagination_request_count (u : Bool) (s e : Date) (rn pn : String)
    (items : List PR)
    (h : u = false ∨
      ∀ pr ∈ items, ∀ d, pr.creationDate = some d → Date.ltb d s = false) :
    (items.length % 100 = 0 →
      (fetchRepo u s e rn pn (pagesOfItems items)).requests
        = items.length / 100 + 1)
    ∧ (items.length % 100 ≠ 0 →
      (fetchRepo u s e rn pn (pagesOfItems items)).requests
        = (items.length + 99) / 100) := by
  have hr := fetchRepoLoop_requests_formula u s e rn pn items h
  rw [fetchRepo]
  exact ⟨fun _ => hr, fun hmod => by rw [hr]; omega⟩

/-- Witness for C2: 200 items (a multiple of the page size) take
`200 / 100 + 1 = 3` requests; 150 items take `(150 + 99) / 100 = 2`. -/
theorem C2_pagination_request_count_witness :
    ((200 : Nat) % 100 = 0
      ∧ (fetchRepo false ⟨2025, 3, 1⟩ ⟨2025, 4, 1⟩ "r" "p"
          (pagesOfItems (List.replicate 200
            ⟨0, "A", [], none, some ⟨2025, 3, 15⟩, none, none⟩))).requests
        = (List.replicate 200
            (⟨0, "A", [], none, some ⟨2025, 3, 15⟩, none, none⟩ : PR)).length
            / 100 + 1)
    ∧ ((150 : Nat) % 100 ≠ 0
      ∧ (fetchRepo false ⟨2025, 3, 1⟩ ⟨2025, 4, 1⟩ "r" "p"
          (pagesOfItems (List.replicate 150
            ⟨0, "A", [], none, some ⟨2025, 3, 15⟩, none, none⟩))).requests
        = ((List.replicate 150
            (⟨0, "A", [], none, some ⟨2025, 3, 15⟩, none, none⟩ : PR)).length
            + 99) / 100) :=
  ⟨⟨by decide,
    (C2_pagination_request_count false ⟨2025, 3, 1⟩ ⟨2025, 4, 1⟩ "r" "p"
      (List.replicate 200 ⟨0, "A", [], none, some ⟨2025, 3, 15⟩, none, none⟩)
      (Or.inl rfl)).1 (by rw [List.length_replicate])⟩,
   ⟨by decide,
    (C2_pagination_request_count false ⟨2025, 3, 1⟩ ⟨2025, 4, 1⟩ "r" "p"
      (List.replicate 150 ⟨0, "A", [], none, some ⟨2025, 3, 15⟩, none, none⟩)
      (Or.inl rfl)).2 (by rw [List.length_replicate]; omega)⟩⟩

/-- C3: the early-stop heuristic fires only under creation-date filtering.
With completion-date filtering the number of page requests is a pure
function of the item count — page content never terminates a repository's
fetch early; with creation-date filtering, a full page whose first (newest)
item was created strictly before the window start ends the repository after
the current request, issuing no further page request. -/
theorem C3_early_stop_only_for_creation_date (s e : Date) (rn pn : String)
    (items : List PR) (prs : List PR) (rest : List PageResult) (d : Date) :
    ((fetchRepo false s e rn pn (pagesOfItems items)).requests
        = items.length / 100 + 1)
    ∧ (prs.length = 100 →
        prs.head?.bind PR.creationDate = some d →
        Date.ltb d s = true →
        (fetchRepoLoop true s e rn pn (PageResult.ok prs :: rest)).requests
          = 1) := by
  constructor
  · exact fetchRepoLoop_requests_formula false s e rn pn items (Or.inl rfl)
  · intro hlen hhead hd
    rcases prs with _ | ⟨p, ps⟩
    · simp at hlen
    · have hcd : p.creationDate = some d := hhead
      rw [fetchRepoLoop]
      simp [getPullRequests, hlen, earlyStopHit, hcd, hd]

/-- Witness for C3: an empty repository under completion-date filtering
takes one request; under creation-date filtering a full page of records
created 2020-01-01, against a window starting 2025-01-01, stops after the
current request even though another full page follows. -/
theorem C3_early_stop_only_for_creation_date_witness :
    ((fetchRepo false ⟨2025, 1, 1⟩ ⟨2026, 1, 1⟩ "r" "p"
        (pagesOfItems [])).requests = ([] : List PR).length / 100 + 1)
    ∧ (fetchRepoLoop true ⟨2025, 1, 1⟩ ⟨2026, 1, 1⟩ "r" "p"
        (PageResult.ok (List.replicate 100
            ⟨0, "A", [], some ⟨2020, 1, 1⟩, none, none, none⟩)
          :: [PageResult.ok (List.replicate 100
            ⟨0, "A", [], some ⟨2020, 1, 1⟩, none, none, none⟩)])).requests
      = 1 := by
  have h := C3_early_stop_only_for_creation_date ⟨2025, 1, 1⟩ ⟨2026, 1, 1⟩
    "r" "p" []
    (List.replicate 100 ⟨0, "A", [], some ⟨2020, 1, 1⟩, none, none, none⟩)
    [PageResult.ok (List.replicate 100
      ⟨0, "A", [], some ⟨2020, 1, 1⟩, none, none, none⟩)]
    ⟨2020, 1, 1⟩
  exact ⟨h.1, h.2 (by simp) (by simp [List.replicate]) (by decide)⟩

/-- C4 counterexample: the claim says any raw timestamp whose
fractional-seconds component exceeds 6 digits is truncated to exactly 6
digits before parsing.  The timestamp
`2025-01-01T00:00:00.1234567-05:00` has a 7-digit fraction, but the
truncation branch only runs when the cleaned string contains a `'+'`
(lines 207-213), so normalization returns it unchanged, 7-digit fraction
and all. -/
theorem C4_counterexample :
    normalizeTimestamp ("2025-01-01T00:00:00.1234567-05:00".toList)
      = "2025-01-01T00:00:00.1234567-05:00".toList
    ∧ charsContains ("2025-01-01T00:00:00.1234567-05:00".toList)
        (".1234567".toList) = true := by
  refine ⟨by decide, by decide⟩

/-- C4 (amended): normalization replaces every occurrence of `'Z'` (in a
well-formed timestamp, the single trailing one) with `'+00:00'`, and — only
when the cleaned string contains both `'.'` and `'+'`, which holds for
every Z-suffixed timestamp — truncates a fractional-seconds component
longer than 6 digits to its first 6 digits, never padding a shorter one
(a fraction of at most 6 digits passes through unchanged); an over-precise
fraction accompanied by a negative-offset suffix is left untouched.  For
every well-formed Z-suffixed timestamp with a digit fraction, the
normalized string parses to the same timestamp truncated to microsecond
precision, with a zero UTC offset. -/
theorem C4_timestamp_normalization (main frac : List Char)
    (hZm : 'Z' ∉ main) (hne : frac ≠ [])
    (hdig : frac.all isDigitChar = true) :
    normalizeTimestamp (main ++ ('.' :: frac) ++ ['Z'])
      = main ++ '.' :: truncMicroStr frac ++ '+' :: "00:00".toList
    ∧ (frac.length ≤ 6 → truncMicroStr frac = frac)
    ∧ (6 < frac.length → truncMicroStr frac = frac.take 6)
    ∧ parseNormalized (normalizeTimestamp (main ++ ('.' :: frac) ++ ['Z']))
      = some (main, microsOfFrac frac, "00:00".toList) := by
  have h1 := normalizeTimestamp_eq main frac hZm hdig
  refine ⟨h1, ?_, ?_, ?_⟩
  · intro h
    rw [truncMicroStr, if_neg (by omega)]
  · intro h
    rw [truncMicroStr, if_pos h]
  · rw [h1]
    exact parseNormalized_eq main frac hne hdig

/-- Witness for C4 (amended): the Azure DevOps-style timestamp
`2025-03-31T10:00:00.123456789Z` (9-digit fraction, naked Z) normalizes to
`2025-03-31T10:00:00.123456+00:00` and parses to 123456 microseconds with
a zero offset. -/
theorem C4_timestamp_normalization_witness :
    normalizeTimestamp ("2025-03-31T10:00:00".toList
        ++ ('.' :: "123456789".toList) ++ ['Z'])
      = "2025-03-31T10:00:00".toList
        ++ '.' :: truncMicroStr "123456789".toList ++ '+' :: "00:00".toList
    ∧ ("123456789".toList.length ≤ 6 →
        truncMicroStr "123456789".toList = "123456789".toList)
    ∧ (6 < "123456789".toList.length →
        truncMicroStr "123456789".toList = "123456789".toList.take 6)
    ∧ parseNormalized (normalizeTimestamp ("2025-03-31T10:00:00".toList
        ++ ('.' :: "123456789".toList) ++ ['Z']))
      = some ("2025-03-31T10:00:00".toList,
          microsOfFrac "123456789".toList, "00:00".toList) :=
  C4_timestamp_normalization "2025-03-31T10:00:00".toList
    "123456789".toList (by decide) (by decide) (by decide)

/-- C5 counterexample: the claim says a repository with a failed page
request contributes zero pull requests, for every such request.  Here the
first page succeeds with 100 in-window records and the second page fails
with "not found": the failing request is issued (2 requests), yet the
repository contributes the 100 records already collected — not zero. -/
theorem C5_counterexample :
    getPullRequests PageResult.notFound = []
    ∧ (fetchRepo false ⟨2025, 3, 1⟩ ⟨2025, 4, 1⟩ "r" "p"
        [PageResult.ok (List.replicate 100
            ⟨0, "A", [], none, some ⟨2025, 3, 15⟩, none, none⟩),
          PageResult.notFound]).requests = 2
    ∧ (fetchRepo false ⟨2025, 3, 1⟩ ⟨2025, 4, 1⟩ "r" "p"
        [PageResult.ok (List.replicate 100
            ⟨0, "A", [], none, some ⟨2025, 3, 15⟩, none, none⟩),
          PageResult.notFound]).prs.length = 100
    ∧ ¬ (fetchRepo false ⟨2025, 3, 1⟩ ⟨2025, 4, 1⟩ "r" "p"
        [PageResult.ok (List.replicate 100
            ⟨0, "A", [], none, some ⟨2025, 3, 15⟩, none, none⟩),
          PageResult.notFound]).prs.length = 0 := by
  refine ⟨rfl, rfl, rfl, by decide⟩

/-- C5 (amended): a page request failing with "not found" or "access
denied" yields an empty item list, stops pagination for the repository at
that page without raising (the failing request is the last one issued), and
contributes no further records; records collected from earlier pages are
retained, so a repository whose first page fails contributes zero pull
requests and is marked as having no data. -/
theorem C5_notfound_unit_skip (u : Bool) (s e : Date) (rn pn : String)
    (r : PageResult) (rest : List PageResult)
    (h : r = PageResult.notFound ∨ r = PageResult.accessDenied) :
    getPullRequests r = []
    ∧ fetchRepoLoop u s e rn pn (r :: rest) = ⟨[], 1, false⟩ := by
  rcases h with rfl | rfl <;>
    exact ⟨rfl, by rw [fetchRepoLoop]; simp [getPullRequests]⟩

/-- Witness for C5 (amended): a repository whose first page answers "not
found" issues one request, contributes zero records and is marked as
having no data. -/
theorem C5_notfound_unit_skip_witness :
    getPullRequests PageResult.notFound = []
    ∧ fetchRepoLoop false ⟨2025, 3, 1⟩ ⟨2025, 4, 1⟩ "r" "p"
        [PageResult.notFound, PageResult.ok [⟨0, "A", [], none,
          some ⟨2025, 3, 15⟩, none, none⟩]]
      = ⟨[], 1, false⟩ :=
  C5_notfound_unit_skip false ⟨2025, 3, 1⟩ ⟨2025, 4, 1⟩ "r" "p"
    PageResult.notFound
    [PageResult.ok [⟨0, "A", [], none, some ⟨2025, 3, 15⟩, none, none⟩]]
    (Or.inl rfl)

/-- C9: every record the fetcher emits is an in-window record of a served
page annotated with the owning repository and project names; the annotation
changes nothing but those two fields (so no other field is mutated after
materialization), and since the date-window decision is insensitive to the
annotation, annotating before or after the filter yields the same emitted
stream. -/
theorem C9_annotation_frame (u : Bool) (s e : Date) (rn pn : String) :
    (∀ p : PR, (annotatePR rn pn p).repositoryName = some rn
      ∧ (annotatePR rn pn p).projectName = some pn
      ∧ (annotatePR rn pn p).prId = p.prId
      ∧ (annotatePR rn pn p).author = p.author
      ∧ (annotatePR rn pn p).reviewers = p.reviewers
      ∧ (annotatePR rn pn p).creationDate = p.creationDate
      ∧ (annotatePR rn pn p).closedDate = p.closedDate)
    ∧ (∀ pages : List PageResult, ∀ q ∈ (fetchRepo u s e rn pn pages).prs,
        q.repositoryName = some rn ∧ q.projectName = some pn
          ∧ ∃ p, prInWindow u s e p = true ∧ q = annotatePR rn pn p)
    ∧ (∀ p : PR, prInWindow u s e (annotatePR rn pn p) = prInWindow u s e p)
    ∧ (∀ prs : List PR,
        (prs.filter (prInWindow u s e)).map (annotatePR rn pn)
          = (prs.map (annotatePR rn pn)).filter (prInWindow u s e)) := by
  refine ⟨fun p => ⟨rfl, rfl, rfl, rfl, rfl, rfl, rfl⟩, ?_, fun p => rfl, ?_⟩
  · intro pages q hq
    obtain ⟨p, hp, rfl⟩ := fetchRepoLoop_mem u s e rn pn pages q hq
    exact ⟨rfl, rfl, p, hp, rfl⟩
  · intro prs
    rw [List.filter_map]
    rfl

/-- Witness for C9: a concrete one-page fetch whose single in-window record
comes out annotated with the repository and project names and otherwise
unchanged. -/
theorem C9_annotation_frame_witness :
    (annotatePR "repoA" "projA"
        ⟨7, "A", ["R"], none, some ⟨2025, 3, 2⟩, none, none⟩).repositoryName
      = some "repoA"
    ∧ (annotatePR "repoA" "projA"
        ⟨7, "A", ["R"], none, some ⟨2025, 3, 2⟩, none, none⟩).projectName
      = some "projA"
    ∧ ∃ p, prInWindow false ⟨2025, 3, 1⟩ ⟨2025, 4, 1⟩ p = true
        ∧ annotatePR "repoA" "projA"
            ⟨7, "A", ["R"], none, some ⟨2025, 3, 2⟩, none, none⟩
          = annotatePR "repoA" "projA" p :=
  (C9_annotation_frame false ⟨2025, 3, 1⟩ ⟨2025, 4, 1⟩ "repoA" "projA").2.1
    [PageResult.ok [⟨7, "A", ["R"], none, some ⟨2025, 3, 2⟩, none, none⟩]]
    (annotatePR "repoA" "projA"
      ⟨7, "A", ["R"], none, some ⟨2025, 3, 2⟩, none, none⟩)
    (by decide)

/-- C6: in multi-project and organization-wide mode a project whose
processing raises is caught: its contribution is recorded as zero (the
organization-wide loop records `(name, 0)` and adds nothing to the total)
and the loop proceeds, so every project still gets exactly one record, in
order, and all successfully processed tallies appear in the output. -/
theorem C6_unit_failure_continuation
    (outcomes : List (String × Except String Nat))
    (fouts : List (Except String (List PR))) :
    (orgMainProjectLoop outcomes).1
        = outcomes.map (fun no =>
            (no.1, match no.2 with
              | Except.ok c => c
              | Except.error _ => 0))
    ∧ (orgMainProjectLoop outcomes).2
        = (outcomes.map (fun no =>
            match no.2 with
            | Except.ok c => c
            | Except.error _ => 0)).sum
    ∧ fetchPrsFromMultipleProjects fouts
        = (fouts.map (fun o =>
            match o with
            | Except.ok l => l
            | Except.error _ => [])).flatten := by
  refine ⟨?_, ?_, ?_⟩
  · rw [orgMainProjectLoop, orgMainProjectLoop_go]; simp
  · rw [orgMainProjectLoop, orgMainProjectLoop_go]; simp
  · rw [fetchPrsFromMultipleProjects, fetchPrsFromMultipleProjects_go]; simp

/-- C7: no reviewer whose display name begins with `'['` or contains the
service-account marker `"Cloud Services"` ever appears in the reviewer
ranking produced by `analyze_pr_data`, for any input set. -/
theorem C7_no_service_accounts_in_ranking (prs : List PR) (p : String × Nat)
    (hp : p ∈ (analyzePRData prs).reviewers) :
    startsWithChars p.1.toList "[".toList = false
    ∧ charsContains p.1.toList serviceAccountMarker.toList = false := by
  have hmem : p ∈ mostCommon (tallyAll prs).reviewers 10 := by
    simpa [analyzePRData] using hp
  have hok := tallyAll_reviewers_pred prs p
    (mem_mostCommon (tallyAll prs).reviewers 10 p hmem)
  rw [reviewerOk, Bool.and_eq_true, Bool.not_eq_true', Bool.not_eq_true']
    at hok
  exact hok

/-- Witness for C7: the human reviewer `"Alice"` does appear in the ranking
for a concrete input, and the theorem applies to her entry. -/
theorem C7_no_service_accounts_in_ranking_witness :
    (startsWithChars "Alice".toList "[".toList = false
      ∧ charsContains "Alice".toList serviceAccountMarker.toList = false) :=
  C7_no_service_accounts_in_ranking
    [⟨0, "A", ["Alice", "[bot]", "Next Cloud Services Agent"], none,
      some ⟨2025, 3, 2⟩, none, none⟩]
    ("Alice", 1) (by decide)

/-- C8 counterexample: the claim says one pull request contributes at most 1
to any one reviewer's count.  A record whose reviewers list carries the
display name `"Bob"` twice (two reviewer identities sharing a display name)
bumps Bob's counter twice: the code increments once per list entry, not once
per distinct reviewer. -/
theorem C8_counterexample :
    counterCount
        (tallyAll [⟨0, "A", ["Bob", "Bob"], none, some ⟨2025, 3, 2⟩,
          none, none⟩]).reviewers "Bob" = 2
    ∧ (2 : Nat) ≠ 1 := by
  refine ⟨by decide, by decide⟩

/-- C8 (amended): the aggregator increments the author, repository and
project counters exactly once per pull request (each counter's final value
is the number of records bearing that key), and the reviewer counter once
per qualifying entry of the record's reviewers list — so once per distinct
reviewer only when the record's reviewer display names are duplicate-free. -/
theorem C8_aggregator_increment_counts (prs : List PR) (name : String) :
    counterCount (tallyAll prs).authors name
        = prs.countP (fun pr => pr.author == name)
    ∧ counterCount (tallyAll prs).repositories name
        = prs.countP (fun pr => pr.repositoryName.getD "Unknown" == name)
    ∧ counterCount (tallyAll prs).projects name
        = prs.countP (fun pr => pr.projectName.getD "Unknown" == name)
    ∧ counterCount (tallyAll prs).reviewers name
        = (prs.map (fun pr =>
            pr.reviewers.countP (fun r => r == name && reviewerOk r))).sum := by
  refine ⟨?_, ?_, ?_, ?_⟩
  · rw [tallyAll, tallyFold_authors]
    simp [counterCount]
  · rw [tallyAll, tallyFold_repositories]
    simp [counterCount]
  · rw [tallyAll, tallyFold_projects]
    simp [counterCount]
  · rw [tallyAll, tallyFold_reviewers]
    simp [counterCount]

/-- C10: in the per-project entry point, a single positional argument whose
text parses as an integer outside `[2000, 2030]` is not rejected: it is
silently treated as a comma-separated project list and the
current-month-window flag is selected. -/
theorem C10_out_of_range_year_is_project_list (arg : String) (n : Int)
    (h : pyIntOfString arg = some n) (hout : n < 2000 ∨ 2030 < n) :
    parseArgumentsOneArg arg = ⟨splitProjects arg, none, none, true, false⟩ := by
  unfold parseArgumentsOneArg
  rw [h]
  have hn : ¬ (2000 ≤ n ∧ n ≤ 2030) := by omega
  simp [hn]

/-- Witness for C10: the argument `"1999"` is interpreted as the
single-project list `["1999"]` with the current-month window. -/
theorem C10_out_of_range_year_is_project_list_witness :
    parseArgumentsOneArg "1999"
      = ⟨["1999"], none, none, true, false⟩ := by
  rw [C10_out_of_range_year_is_project_list "1999" 1999 (by decide)
    (Or.inl (by decide))]
  decide

end AdoPr
